import Mathlib

/-!
Verification development for the AI slide generator repository.

The first half embeds the front-end state store (`src/frontend/src/lib/store.ts`
together with the data model of `src/frontend/src/lib/types.ts`), the
`useChatStream` streaming hook (second half of `src/frontend/src/lib/types.ts`
as packaged here) and the `useSlideGeneration` hook (`src/unnamed/part_003`).
The second half models the Supervisor state machine and the Consistency Engine
from the specification, because their Python sources (`src/graph/nodes.py` and
friends) are not part of the packaged sources.

JavaScript features are embedded as follows: object spread is expanded field by
field, `Date` timestamps become `Nat`, TypeScript `any` payloads that the code
never inspects become `String`, a JS `Set` of ids becomes a `List String` in
insertion order, and exceptions inside a `try`/`catch` become `Except`.
-/

set_option maxHeartbeats 1000000

namespace SlideApp

/-! ### Data model (src/frontend/src/lib/types.ts, first part) -/

/-- The `Role` union type. -/
inductive Role
  | user | assistant | system | researcher | storywriter | visualizer
  | planner | data_analyst | coordinator | reviewer
deriving DecidableEq, Repr

/-- A chat message; `timestamp: Date` is embedded as `Nat`. -/
structure ChatMessage where
  id : String
  role : Role
  content : String
  timestamp : Nat
  agentName : Option String := none
  isThinking : Option Bool := none
deriving DecidableEq, Repr

/-- The `ArtifactType` union type. -/
inductive ArtifactType
  | report | outline | image | code | plan
deriving DecidableEq, Repr

/-- An artifact; `content: any` is an opaque payload never inspected by the
store, embedded as `String`. -/
structure Artifact where
  id : String
  type : ArtifactType
  title : String
  content : String
  version : Nat
  timestamp : Nat
deriving DecidableEq, Repr

/-- Status field of an `AgentLog`. -/
inductive LogStatus
  | running | completed | failed | pending
deriving DecidableEq, Repr

/-- One entry of the agent activity log. -/
structure AgentLog where
  id : String
  agent : String
  step : String
  status : LogStatus
  timestamp : Nat
  details : Option String := none
deriving DecidableEq, Repr

/-- A saved session descriptor. -/
structure Session where
  id : String
  title : String
  timestamp : String
  summary : Option String := none
deriving DecidableEq, Repr

/-- An authenticated user. -/
structure User where
  uid : String
  email : Option String := none
  displayName : Option String := none
  photoURL : Option String := none
deriving DecidableEq, Repr

/-! ### The zustand store (src/frontend/src/lib/store.ts) -/

/-- The full `AppState` held by the zustand store. -/
structure AppState where
  user : Option User
  currentSessionId : Option String
  sessions : List Session
  messages : List ChatMessage
  logs : List AgentLog
  isStreaming : Bool
  artifacts : List Artifact
  activeArtifactId : Option String
  isSidebarOpen : Bool
  messageInput : String
deriving DecidableEq, Repr

/-- The initial store state produced by `create((set) => (...))`. -/
def initialState : AppState :=
  { user := none
    currentSessionId := none
    sessions := []
    messages := []
    logs := []
    isStreaming := false
    artifacts := []
    activeArtifactId := none
    isSidebarOpen := true
    messageInput := "" }

/-- `Partial<Artifact>`: each field optionally present. -/
structure ArtifactPatch where
  id : Option String := none
  type : Option ArtifactType := none
  title : Option String := none
  content : Option String := none
  version : Option Nat := none
  timestamp : Option Nat := none
deriving DecidableEq, Repr

/-- JS object spread of a `Partial<Artifact>` over an `Artifact`
(`updateArtifact`'s merge): fields present in the patch overwrite, absent
fields keep the old value. -/
def spreadPatch (a : Artifact) (u : ArtifactPatch) : Artifact :=
  { id := u.id.getD a.id
    type := u.type.getD a.type
    title := u.title.getD a.title
    content := u.content.getD a.content
    version := u.version.getD a.version
    timestamp := u.timestamp.getD a.timestamp }

/-- JS object spread of a full `Artifact` over another (`addArtifact`'s
replace path): every field of `b` is present, so every field of `a` is
overwritten. -/
def spreadFull (a b : Artifact) : Artifact :=
  { a with
    id := b.id
    type := b.type
    title := b.title
    content := b.content
    version := b.version
    timestamp := b.timestamp }

/-- Spreading a full record overwrites every field, so the result is the
incoming record (structure eta). -/
theorem spreadFull_eq (a b : Artifact) : spreadFull a b = b := rfl

/-- `addMessage`: drops the message when one with the same id is already
present (the action returns the state unchanged), otherwise appends it. -/
def addMessage (msg : ChatMessage) (s : AppState) : AppState :=
  match s.messages.find? (fun m => m.id == msg.id) with
  | some _ => s
  | none => { s with messages := s.messages ++ [msg] }

/-- `appendMessageContent`: appends `content` to the message with the given
id. In the source the concatenation is guarded by
`typeof m.content === 'string'`; message contents are strings here, so the
string branch always applies. -/
def appendMessageContent (id content : String) (s : AppState) : AppState :=
  { s with
    messages := s.messages.map (fun m =>
      if m.id == id then { m with content := m.content ++ content } else m) }

/-- `setMessages`: replaces the whole message list. -/
def setMessages (msgs : List ChatMessage) (s : AppState) : AppState :=
  { s with messages := msgs }

/-- `addLog`: appends one log entry. -/
def addLog (log : AgentLog) (s : AppState) : AppState :=
  { s with logs := s.logs ++ [log] }

/-- `clearLogs`: resets the log to the empty list. -/
def clearLogs (s : AppState) : AppState :=
  { s with logs := [] }

/-- `setIsStreaming`. -/
def setIsStreaming (v : Bool) (s : AppState) : AppState :=
  { s with isStreaming := v }

/-- `addArtifact`: if an artifact with the incoming id exists, every stored
artifact with that id is replaced by the spread of the incoming artifact over
it; otherwise the incoming artifact is appended. -/
def addArtifact (artifact : Artifact) (s : AppState) : AppState :=
  match s.artifacts.find? (fun a => a.id == artifact.id) with
  | some _ =>
      { s with
        artifacts := s.artifacts.map (fun a =>
          if a.id == artifact.id then spreadFull a artifact else a) }
  | none => { s with artifacts := s.artifacts ++ [artifact] }

/-- `updateArtifact`: applies the patch to every artifact with the given id,
leaving the others in place. -/
def updateArtifact (id : String) (updates : ArtifactPatch) (s : AppState) : AppState :=
  { s with
    artifacts := s.artifacts.map (fun a =>
      if a.id == id then spreadPatch a updates else a) }

/-- `setActiveArtifactId`. -/
def setActiveArtifactId (id : Option String) (s : AppState) : AppState :=
  { s with activeArtifactId := id }

/-! ### The streaming hook `useChatStream`
(src/frontend/src/lib/types.ts, second part) -/

/-- One server-sent event as consumed by `onmessage`, pre-parsed: the
handler's `JSON.parse(ev.data)` and the subsequent field reads are embedded
by this sum type. `emptyData` is an event with falsy `ev.data` (the handler
returns at once); `unparseable` is an event whose data makes `JSON.parse`
throw; `otherEvent` is a parseable event whose name matches no switch case. -/
inductive StreamEvent
  | emptyData
  | message (id : String) (data : String)
  | chainStart (agentName : Option String)
  | chainEnd (agentName : Option String)
  | artifactEvent (id : String) (type : ArtifactType) (title : String)
      (content : String) (version : Option Nat)
  | unparseable
  | otherEvent
deriving DecidableEq, Repr

/-- The exceptions the `onmessage` body can raise. -/
inductive JsError
  | refErrorAppendMessageContent
  | jsonParseError
deriving DecidableEq, Repr

/-- State owned by one `startStream` run: the `seenMessageIds` set (in
insertion order) together with the store. -/
structure HandlerState where
  seenMessageIds : List String
  store : AppState
deriving DecidableEq, Repr

/-- Body of the `onmessage` handler, inside its `try`. For a `message` event
whose id was already seen, the `else` branch calls `appendMessageContent`,
which is NOT among the names destructured from the store at the top of
`useChatStream`; in JavaScript that unresolved reference throws a
`ReferenceError`, embedded here as `.error .refErrorAppendMessageContent`.
`ev.id || ...` is modelled by testing the id against the empty string, and
`data.version || 1` by mapping a missing or zero version to 1. -/
def onmessageBody (now : Nat) (ev : StreamEvent) (hs : HandlerState) :
    Except JsError HandlerState :=
  match ev with
  | .emptyData => .ok hs
  | .message id data =>
      let msgId := if id == "" then "msg-" ++ toString now else id
      if data == "" then .ok hs
      else if hs.seenMessageIds.contains msgId then
        .error .refErrorAppendMessageContent
      else
        .ok { seenMessageIds := hs.seenMessageIds ++ [msgId]
              store := addMessage
                { id := msgId, role := .assistant, content := data, timestamp := now }
                hs.store }
  | .chainStart agentName =>
      .ok { hs with
            store := addLog
              { id := "log-" ++ toString now, agent := agentName.getD "System"
                step := "Started", status := .running, timestamp := now } hs.store }
  | .chainEnd agentName =>
      .ok { hs with
            store := addLog
              { id := "log-" ++ toString now, agent := agentName.getD "System"
                step := "Completed", status := .completed, timestamp := now } hs.store }
  | .artifactEvent id ty title content version =>
      let newArtifact : Artifact :=
        { id := id, type := ty, title := title, content := content
          version := match version with
            | some v => if v == 0 then 1 else v
            | none => 1
          timestamp := now }
      .ok { hs with
            store := setActiveArtifactId (some newArtifact.id)
              (addArtifact newArtifact hs.store) }
  | .unparseable => .error .jsonParseError
  | .otherEvent => .ok hs

/-- The installed `onmessage` handler: the body runs inside `try`/`catch`.
Every throwing path of the body throws before any store or seen-set mutation
(the duplicate-id path throws on the unresolved reference itself, the parse
path throws inside `JSON.parse`), so the `catch` — which only logs — leaves
the handler state exactly as it was. -/
def onmessage (now : Nat) (ev : StreamEvent) (hs : HandlerState) : HandlerState :=
  match onmessageBody now ev hs with
  | .ok hs' => hs'
  | .error _ => hs

/-- How one `fetchEventSource` call in `startStream` ends. -/
inductive StreamExit
  | closed
  | connectFailed
  | transportError
deriving DecidableEq, Repr

/-- One complete stream: the events delivered and how the stream ended. -/
structure StreamRun where
  events : List StreamEvent
  exit : StreamExit
deriving DecidableEq, Repr

/-- Folding `onmessage` over the delivered events. -/
def processEvents (now : Nat) (events : List StreamEvent) (hs : HandlerState) :
    HandlerState :=
  events.foldl (fun h ev => onmessage now ev h) hs

/-- `startStream`: sets `isStreaming` to true, runs the SSE loop, and exits
through exactly one of three paths — `onclose` when the stream closes
normally, the outer `catch` when `onopen` rejects (non-ok response), and the
outer `catch` when `onerror` rethrows the transport error. Each path calls
`setIsStreaming(false)`. -/
def startStream (now : Nat) (run : StreamRun) (s : AppState) : AppState :=
  let s1 := setIsStreaming true s
  let hs := processEvents now run.events { seenMessageIds := [], store := s1 }
  match run.exit with
  | .closed => setIsStreaming false hs.store
  | .connectFailed => setIsStreaming false hs.store
  | .transportError => setIsStreaming false hs.store

/-! ### The slide generation hook `useSlideGeneration`
(src/unnamed/part_003) -/

/-- The hook state of `useSlideGeneration` for one slide. -/
structure SlideGenState where
  imageUrl : Option String
  isGenerating : Bool
deriving DecidableEq, Repr

/-- Outcome of the POST to `/api/generate-slide`. -/
inductive FetchOutcome
  | ok (url : String)
  | httpError
  | networkError
deriving DecidableEq, Repr

/-- One `generateImage` call: returns the state afterwards and the number of
generation requests issued. The first line of the callback is
`if (imageUrl) return;`, so a slide that already has an image issues no
request; otherwise exactly one request is issued, and on success the url is
stored with a cache-busting query attached, while either failure path logs
and leaves `imageUrl` null, with `isGenerating` cleared in `finally`. -/
def generateImage (st : SlideGenState) (res : FetchOutcome) (now : Nat) :
    SlideGenState × Nat :=
  match st.imageUrl with
  | some _ => (st, 0)
  | none =>
      match res with
      | .ok url =>
          ({ imageUrl := some (url ++ "?t=" ++ toString now), isGenerating := false }, 1)
      | .httpError => ({ imageUrl := none, isGenerating := false }, 1)
      | .networkError => ({ imageUrl := none, isGenerating := false }, 1)

/-! ### Supervisor state machine (modelled from the spec)

The orchestrating Supervisor, the Reviewer interface and the retry/replan
policy live in the Python backend (`src/graph/nodes.py`,
`src/config/settings.py`), which is not among the packaged sources — only
its prompts, architecture document and test report are. The following
definitions are therefore modelled from the specification, sections 3, 4.1
and 7. -/

/-- Modelled from the spec: one plan step (§3). `src/graph/nodes.py` is not
in the packaged sources. The role enum is open-ended in the spec, so it is
kept as text. -/
structure SupStep where
  id : Nat
  role : String
  instruction : String
  description : String
  design_direction : Option String := none
deriving DecidableEq, Repr

/-- Modelled from the spec: a committed artifact as the Supervisor stores it
(§3). The payload is opaque to the Supervisor; artifact keys are modelled by
the producing step's id. -/
structure SupArtifact where
  id : Nat
  content : String
  version : Nat
deriving DecidableEq, Repr

/-- Modelled from the spec: the Reviewer's output (§3, §4.4). The `score`
field is informational only — the Supervisor inspects just `approved` and
`feedback` — and floating point is out of the embedding, so it is elided. -/
structure ReviewOutput where
  approved : Bool
  feedback : String
deriving DecidableEq, Repr

/-- Modelled from the spec: the Supervisor's ordered lifecycle events
(§6, event stream). -/
inductive SupEvent
  | step_started (step_id : Nat)
  | step_approved (step_id : Nat) (artifact_id : Nat) (version : Nat)
  | step_rejected (step_id : Nat) (retry_count : Nat) (feedback : String)
  | replanning (step_id : Nat)
  | session_done
  | session_failed (cause : Nat)
deriving DecidableEq, Repr

/-- Terminal or running phase of a session. -/
inductive SupPhase
  | running | done | failed
deriving DecidableEq, Repr

/-- Modelled from the spec: the session state owned by the Supervisor (§3):
plan, current step index, artifact map, per-step retry counters, replay log
and phase. `replanned` records the step ids that have already used their
single replanning event. -/
structure SupState where
  plan : List SupStep
  idx : Nat
  artifacts : List SupArtifact
  retry : Nat → Nat
  replanned : List Nat
  history : List SupEvent
  phase : SupPhase

/-- Pointwise update of a retry-counter map. -/
def updFn (f : Nat → Nat) (k v : Nat) : Nat → Nat :=
  fun i => if i = k then v else f i

/-- A session state is terminal when the phase is DONE or FAILED. -/
def isTerminal (s : SupState) : Bool :=
  match s.phase with
  | .running => false
  | .done => true
  | .failed => true

/-- The session state at session start for a given plan. -/
def initSup (plan : List SupStep) : SupState :=
  { plan := plan, idx := 0, artifacts := [], retry := fun _ => 0,
    replanned := [], history := [], phase := .running }

/-- Modelled from the spec: the version assigned on commit — next version if
an artifact with that id pre-exists, otherwise 1 (§4.1). -/
def nextVersion (aid : Nat) (arts : List SupArtifact) : Nat :=
  match arts.find? (fun a => a.id == aid) with
  | some a => a.version + 1
  | none => 1

/-- Modelled from the spec: committing a candidate artifact into the
artifact map (§4.1): replace the entry at that id with the next version, or
append a fresh entry at version 1. -/
def commitArtifact (aid : Nat) (content : String) (arts : List SupArtifact) :
    List SupArtifact :=
  match arts.find? (fun a => a.id == aid) with
  | some a =>
      arts.map (fun x =>
        if x.id == aid then { id := aid, content := content, version := a.version + 1 }
        else x)
  | none => arts ++ [{ id := aid, content := content, version := 1 }]

/-- Modelled from the spec: one Supervisor transition, consuming one
Reviewer decision (§4.1). Beyond the plan end the session transitions to
DONE. On approval the candidate artifact (produced by the dispatched worker,
modelled by the oracle `worker`) is committed, the step's retry counter
resets and the index advances. On rejection the counter increments; below
`maxRetries` the same step is re-dispatched with feedback; reaching
`maxRetries` triggers the single replanning event for that step id — the
Planner collaborator, modelled by the oracle `oracle`, supplies fresh
instructions for the remaining steps, spliced in place of the tail keeping
the plan's step-id skeleton (plan ids are unique and strictly increasing,
and the new partial plan is scoped to the failing objective) — and a further
failure after the step's replanning moves the session to FAILED. Every
transition appends its lifecycle events to the replayable history log. -/
def supervisorStep (maxRetries : Nat) (oracle : Nat → String → String)
    (worker : SupStep → String) (review : ReviewOutput) (s : SupState) : SupState :=
  match s.phase with
  | .done => s
  | .failed => s
  | .running =>
    if h : s.idx < s.plan.length then
      let st := s.plan[s.idx]
      if review.approved then
        let v := nextVersion st.id s.artifacts
        { s with
          artifacts := commitArtifact st.id (worker st) s.artifacts
          retry := updFn s.retry st.id 0
          idx := s.idx + 1
          history := s.history ++
            [.step_started st.id, .step_approved st.id st.id v] }
      else
        let r := s.retry st.id + 1
        if r < maxRetries then
          { s with
            retry := updFn s.retry st.id r
            history := s.history ++
              [.step_started st.id, .step_rejected st.id r review.feedback] }
        else if st.id ∈ s.replanned then
          { s with
            retry := updFn s.retry st.id r
            phase := .failed
            history := s.history ++
              [.step_started st.id, .step_rejected st.id r review.feedback,
               .session_failed st.id] }
        else
          { s with
            retry := updFn s.retry st.id r
            replanned := s.replanned ++ [st.id]
            plan := s.plan.take s.idx ++ (s.plan.drop s.idx).map (fun t =>
              { t with instruction := oracle t.id t.instruction })
            history := s.history ++
              [.step_started st.id, .step_rejected st.id r review.feedback,
               .replanning st.id] }
    else
      { s with phase := .done, history := s.history ++ [.session_done] }

/-- Running the Supervisor on a sequence of Reviewer decisions. -/
def runSupervisor (maxRetries : Nat) (oracle : Nat → String → String)
    (worker : SupStep → String) (reviews : List ReviewOutput) (s : SupState) : SupState :=
  reviews.foldl (fun s r => supervisorStep maxRetries oracle worker r s) s

/-- Remaining work budget of one step: its remaining retries before
replanning, plus 2 when its replanning event is unused, plus 1 after it. -/
def stepBudget (maxRetries : Nat) (s : SupState) (st : SupStep) : Nat :=
  (maxRetries - s.retry st.id) + (if st.id ∈ s.replanned then 1 else 2)

/-- Termination measure: zero on terminal states, otherwise one plus the
summed budgets of the remaining steps. -/
def supMeasure (maxRetries : Nat) (s : SupState) : Nat :=
  if isTerminal s then 0
  else 1 + ((s.plan.drop s.idx).map (stepBudget maxRetries s)).sum

/-! ### Supervisor lemmas -/

/-- Terminal states are fixed points of the transition. -/
theorem supervisorStep_terminal_fixed (mr : Nat) (oracle : Nat → String → String)
    (worker : SupStep → String) (rv : ReviewOutput) (s : SupState)
    (h : isTerminal s = true) :
    supervisorStep mr oracle worker rv s = s := by
  unfold supervisorStep
  cases hp : s.phase with
  | running => unfold isTerminal at h; rw [hp] at h; simp at h
  | done => rfl
  | failed => rfl

/-- Terminal states absorb whole runs. -/
theorem runSupervisor_terminal_fixed (mr : Nat) (oracle : Nat → String → String)
    (worker : SupStep → String) (reviews : List ReviewOutput) (s : SupState)
    (h : isTerminal s = true) :
    runSupervisor mr oracle worker reviews s = s := by
  induction reviews with
  | nil => rfl
  | cons r rs ih =>
    show runSupervisor mr oracle worker rs (supervisorStep mr oracle worker r s) = s
    rw [supervisorStep_terminal_fixed mr oracle worker r s h]
    exact ih

/-- The id skeleton of the plan never changes: replanning replaces only the
instructions of the remaining steps. -/
theorem supervisorStep_plan_ids (mr : Nat) (oracle : Nat → String → String)
    (worker : SupStep → String) (rv : ReviewOutput) (s : SupState) :
    (supervisorStep mr oracle worker rv s).plan.map SupStep.id
      = s.plan.map SupStep.id := by
  unfold supervisorStep
  cases hp : s.phase with
  | done => rfl
  | failed => rfl
  | running =>
    by_cases h : s.idx < s.plan.length
    · simp only [dif_pos h]
      by_cases ha : rv.approved
      · simp [ha]
      · simp only [ha, if_false, Bool.false_eq_true]
        by_cases hr : s.retry (s.plan[s.idx]).id + 1 < mr
        · simp [hr]
        · by_cases hm : (s.plan[s.idx]).id ∈ s.replanned
          · simp [hr, hm]
          · simp only [hr, hm, if_false, if_true]
            show (s.plan.take s.idx ++ (s.plan.drop s.idx).map _).map _ = _
            rw [List.map_append, List.map_map]
            have : (SupStep.id ∘ fun t =>
                { t with instruction := oracle t.id t.instruction }) = SupStep.id := rfl
            rw [this, ← List.map_append, List.take_append_drop]
    · simp [h]

/-- In a plan with pairwise-distinct ids, no step strictly after position `i`
shares the id of the step at position `i`. -/
theorem nodup_notin_drop (l : List SupStep) (i : Nat)
    (hn : (l.map SupStep.id).Nodup) :
    ∀ hi : i < l.length, ∀ t ∈ l.drop (i + 1), t.id ≠ (l.get ⟨i, hi⟩).id := by
  induction l generalizing i with
  | nil => intro hi; simp at hi
  | cons x xs ih =>
    intro hi t ht heq
    rw [List.map_cons, List.nodup_cons] at hn
    cases i with
    | zero =>
      simp only [List.drop_succ_cons, List.drop_zero] at ht
      exact hn.1 (heq ▸ List.mem_map_of_mem SupStep.id ht)
    | succ n =>
      exact ih n hn.2 (by simpa using hi) t (by simpa using ht) (by simpa using heq)

/-- Transition equation: past the end of the plan the session is DONE. -/
theorem supervisorStep_done_eq (mr : Nat) (oracle : Nat → String → String)
    (worker : SupStep → String) (rv : ReviewOutput) (s : SupState)
    (hp : s.phase = .running) (h : ¬ s.idx < s.plan.length) :
    supervisorStep mr oracle worker rv s
      = { s with phase := .done, history := s.history ++ [.session_done] } := by
  unfold supervisorStep
  rw [hp, dif_neg h]

/-- Transition equation: an approval commits, resets the retry counter and
advances the index. -/
theorem supervisorStep_approved_eq (mr : Nat) (oracle : Nat → String → String)
    (worker : SupStep → String) (rv : ReviewOutput) (s : SupState)
    (hp : s.phase = .running) (h : s.idx < s.plan.length) (ha : rv.approved = true) :
    supervisorStep mr oracle worker rv s
      = { s with
          artifacts := commitArtifact (s.plan[s.idx]).id
            (worker (s.plan[s.idx])) s.artifacts
          retry := updFn s.retry (s.plan[s.idx]).id 0
          idx := s.idx + 1
          history := s.history ++
            [.step_started (s.plan[s.idx]).id,
             .step_approved (s.plan[s.idx]).id (s.plan[s.idx]).id
               (nextVersion (s.plan[s.idx]).id s.artifacts)] } := by
  unfold supervisorStep
  rw [hp, dif_pos h]
  simp only [ha, if_true]

/-- Transition equation: a rejection below the retry bound re-dispatches the
same step. -/
theorem supervisorStep_retry_eq (mr : Nat) (oracle : Nat → String → String)
    (worker : SupStep → String) (rv : ReviewOutput) (s : SupState)
    (hp : s.phase = .running) (h : s.idx < s.plan.length) (ha : rv.approved = false)
    (hr : s.retry (s.plan[s.idx]).id + 1 < mr) :
    supervisorStep mr oracle worker rv s
      = { s with
          retry := updFn s.retry (s.plan[s.idx]).id (s.retry (s.plan[s.idx]).id + 1)
          history := s.history ++
            [.step_started (s.plan[s.idx]).id,
             .step_rejected (s.plan[s.idx]).id (s.retry (s.plan[s.idx]).id + 1)
               rv.feedback] } := by
  unfold supervisorStep
  rw [hp, dif_pos h]
  simp only [ha, Bool.false_eq_true, if_false, if_pos hr]

/-- Transition equation: retry exhaustion on a step that already replanned
moves the session to FAILED. -/
theorem supervisorStep_failed_eq (mr : Nat) (oracle : Nat → String → String)
    (worker : SupStep → String) (rv : ReviewOutput) (s : SupState)
    (hp : s.phase = .running) (h : s.idx < s.plan.length) (ha : rv.approved = false)
    (hr : ¬ s.retry (s.plan[s.idx]).id + 1 < mr)
    (hm : (s.plan[s.idx]).id ∈ s.replanned) :
    supervisorStep mr oracle worker rv s
      = { s with
          retry := updFn s.retry (s.plan[s.idx]).id (s.retry (s.plan[s.idx]).id + 1)
          phase := .failed
          history := s.history ++
            [.step_started (s.plan[s.idx]).id,
             .step_rejected (s.plan[s.idx]).id (s.retry (s.plan[s.idx]).id + 1)
               rv.feedback,
             .session_failed (s.plan[s.idx]).id] } := by
  unfold supervisorStep
  rw [hp, dif_pos h]
  simp only [ha, Bool.false_eq_true, if_false, if_neg hr, if_pos hm]

/-- Transition equation: retry exhaustion on a step that has not replanned
fires its single replanning event and splices new instructions into the
tail. -/
theorem supervisorStep_replan_eq (mr : Nat) (oracle : Nat → String → String)
    (worker : SupStep → String) (rv : ReviewOutput) (s : SupState)
    (hp : s.phase = .running) (h : s.idx < s.plan.length) (ha : rv.approved = false)
    (hr : ¬ s.retry (s.plan[s.idx]).id + 1 < mr)
    (hm : ¬ (s.plan[s.idx]).id ∈ s.replanned) :
    supervisorStep mr oracle worker rv s
      = { s with
          retry := updFn s.retry (s.plan[s.idx]).id (s.retry (s.plan[s.idx]).id + 1)
          replanned := s.replanned ++ [(s.plan[s.idx]).id]
          plan := s.plan.take s.idx ++ (s.plan.drop s.idx).map (fun t =>
            { t with instruction := oracle t.id t.instruction })
          history := s.history ++
            [.step_started (s.plan[s.idx]).id,
             .step_rejected (s.plan[s.idx]).id (s.retry (s.plan[s.idx]).id + 1)
               rv.feedback,
             .replanning (s.plan[s.idx]).id] } := by
  unfold supervisorStep
  rw [hp, dif_pos h]
  simp only [ha, Bool.false_eq_true, if_false, if_neg hr, if_neg hm]

/-- A running session's measure is one plus the remaining budgets. -/
theorem supMeasure_running (mr : Nat) (s : SupState) (h : s.phase = .running) :
    supMeasure mr s = 1 + ((s.plan.drop s.idx).map (stepBudget mr s)).sum := by
  have hterm : isTerminal s = false := by unfold isTerminal; rw [h]
  simp [supMeasure, hterm]

/-- Budgets are positive. -/
theorem stepBudget_pos (mr : Nat) (s : SupState) (t : SupStep) :
    1 ≤ stepBudget mr s t := by
  unfold stepBudget
  split <;> omega

/-- Budgets agree across states that agree on a step's retry counter and
replanning flag. -/
theorem stepBudget_congr (mr : Nat) (s s' : SupState) (t : SupStep)
    (hr : s'.retry t.id = s.retry t.id)
    (hm : (t.id ∈ s'.replanned) ↔ (t.id ∈ s.replanned)) :
    stepBudget mr s' t = stepBudget mr s t := by
  unfold stepBudget
  rw [hr]
  by_cases h : t.id ∈ s.replanned
  · rw [if_pos h, if_pos (hm.mpr h)]
  · rw [if_neg h, if_neg (fun hh => h (hm.mp hh))]

/-- Every transition out of a running state strictly decreases the
termination measure, for plans with pairwise-distinct step ids. -/
theorem supMeasure_decreases (mr : Nat) (oracle : Nat → String → String)
    (worker : SupStep → String) (rv : ReviewOutput) (s : SupState)
    (hp : s.phase = .running) (hn : (s.plan.map SupStep.id).Nodup) :
    supMeasure mr (supervisorStep mr oracle worker rv s) < supMeasure mr s := by
  have hms := supMeasure_running mr s hp
  by_cases h : s.idx < s.plan.length
  · have hdr : s.plan.drop s.idx = s.plan[s.idx] :: s.plan.drop (s.idx + 1) :=
      List.drop_eq_getElem_cons h
    have hnex : ∀ t ∈ s.plan.drop (s.idx + 1), t.id ≠ (s.plan[s.idx]).id :=
      nodup_notin_drop s.plan s.idx hn h
    by_cases ha : rv.approved
    · -- approval: the head step leaves the remaining list
      have he := supervisorStep_approved_eq mr oracle worker rv s hp h ha
      have hphase' : (supervisorStep mr oracle worker rv s).phase = .running := by
        rw [he]; exact hp
      have hplan' : (supervisorStep mr oracle worker rv s).plan = s.plan := by rw [he]
      have hidx' : (supervisorStep mr oracle worker rv s).idx = s.idx + 1 := by rw [he]
      have hretry' : (supervisorStep mr oracle worker rv s).retry
          = updFn s.retry (s.plan[s.idx]).id 0 := by rw [he]
      have hrep' : (supervisorStep mr oracle worker rv s).replanned = s.replanned := by
        rw [he]
      have hcongr : (s.plan.drop (s.idx + 1)).map
            (stepBudget mr (supervisorStep mr oracle worker rv s))
          = (s.plan.drop (s.idx + 1)).map (stepBudget mr s) := by
        apply List.map_congr_left
        intro t ht
        apply stepBudget_congr
        · rw [hretry']; simp only [updFn]; rw [if_neg (hnex t ht)]
        · rw [hrep']
      have hpos := stepBudget_pos mr s (s.plan[s.idx])
      rw [supMeasure_running mr _ hphase', hplan', hidx', hcongr, hms, hdr,
        List.map_cons, List.sum_cons]
      omega
    · have ha' : rv.approved = false := by revert ha; cases rv.approved <;> simp
      by_cases hr : s.retry (s.plan[s.idx]).id + 1 < mr
      · -- rejection below the bound: the head step loses one retry
        have he := supervisorStep_retry_eq mr oracle worker rv s hp h ha' hr
        have hphase' : (supervisorStep mr oracle worker rv s).phase = .running := by
          rw [he]; exact hp
        have hplan' : (supervisorStep mr oracle worker rv s).plan = s.plan := by rw [he]
        have hidx' : (supervisorStep mr oracle worker rv s).idx = s.idx := by rw [he]
        have hretry' : (supervisorStep mr oracle worker rv s).retry
            = updFn s.retry (s.plan[s.idx]).id (s.retry (s.plan[s.idx]).id + 1) := by
          rw [he]
        have hrep' : (supervisorStep mr oracle worker rv s).replanned = s.replanned := by
          rw [he]
        have hcongr : (s.plan.drop (s.idx + 1)).map
              (stepBudget mr (supervisorStep mr oracle worker rv s))
            = (s.plan.drop (s.idx + 1)).map (stepBudget mr s) := by
          apply List.map_congr_left
          intro t ht
          apply stepBudget_congr
          · rw [hretry']; simp only [updFn]; rw [if_neg (hnex t ht)]
          · rw [hrep']
        have hhead : stepBudget mr (supervisorStep mr oracle worker rv s) (s.plan[s.idx])
            < stepBudget mr s (s.plan[s.idx]) := by
          unfold stepBudget
          rw [hretry', hrep']
          simp only [updFn, eq_self_iff_true, if_true]
          split <;> omega
        rw [supMeasure_running mr _ hphase', hplan', hidx', hms, hdr,
          List.map_cons, List.sum_cons, List.map_cons, List.sum_cons, hcongr]
        omega
      · by_cases hm : (s.plan[s.idx]).id ∈ s.replanned
        · -- second exhaustion: FAILED, measure drops to zero
          have he := supervisorStep_failed_eq mr oracle worker rv s hp h ha' hr hm
          have hz : supMeasure mr (supervisorStep mr oracle worker rv s) = 0 := by
            rw [he]; simp [supMeasure, isTerminal]
          rw [hz, hms]; omega
        · -- replanning: the head step spends its replanning flag
          have he := supervisorStep_replan_eq mr oracle worker rv s hp h ha' hr hm
          have hphase' : (supervisorStep mr oracle worker rv s).phase = .running := by
            rw [he]; exact hp
          have hplan' : (supervisorStep mr oracle worker rv s).plan
              = s.plan.take s.idx ++ (s.plan.drop s.idx).map (fun t =>
                  { t with instruction := oracle t.id t.instruction }) := by rw [he]
          have hidx' : (supervisorStep mr oracle worker rv s).idx = s.idx := by rw [he]
          have hretry' : (supervisorStep mr oracle worker rv s).retry
              = updFn s.retry (s.plan[s.idx]).id (s.retry (s.plan[s.idx]).id + 1) := by
            rw [he]
          have hrep' : (supervisorStep mr oracle worker rv s).replanned
              = s.replanned ++ [(s.plan[s.idx]).id] := by rw [he]
          have htake : (s.plan.take s.idx).length = s.idx := by
            rw [List.length_take]; omega
          have hdrop : ((s.plan.take s.idx ++ (s.plan.drop s.idx).map (fun t : SupStep =>
                { t with instruction := oracle t.id t.instruction })).drop s.idx)
              = (s.plan.drop s.idx).map (fun t : SupStep =>
                  { t with instruction := oracle t.id t.instruction }) :=
            List.drop_left' htake
          have hgb : (stepBudget mr (supervisorStep mr oracle worker rv s)) ∘
                (fun t : SupStep => { t with instruction := oracle t.id t.instruction })
              = stepBudget mr (supervisorStep mr oracle worker rv s) := by
            funext t; rfl
          have hcongr : (s.plan.drop (s.idx + 1)).map
                (stepBudget mr (supervisorStep mr oracle worker rv s))
              = (s.plan.drop (s.idx + 1)).map (stepBudget mr s) := by
            apply List.map_congr_left
            intro t ht
            apply stepBudget_congr
            · rw [hretry']; simp only [updFn]; rw [if_neg (hnex t ht)]
            · rw [hrep']
              constructor
              · intro hmem
                rcases List.mem_append.mp hmem with h1 | h1
                · exact h1
                · exact absurd (List.mem_singleton.mp h1) (hnex t ht)
              · intro hmem; exact List.mem_append_left _ hmem
          have hheadL : stepBudget mr (supervisorStep mr oracle worker rv s)
              (s.plan[s.idx]) = 1 := by
            unfold stepBudget
            rw [hretry', hrep']
            simp only [updFn, eq_self_iff_true, if_true]
            rw [if_pos (List.mem_append_right _ (List.mem_singleton.mpr rfl))]
            omega
          have hheadR : 2 ≤ stepBudget mr s (s.plan[s.idx]) := by
            unfold stepBudget
            rw [if_neg hm]
            omega
          rw [supMeasure_running mr _ hphase', hplan', hidx', hdrop, List.map_map, hgb,
            hms, hdr, List.map_cons, List.sum_cons, List.map_cons, List.sum_cons,
            hcongr, hheadL]
          omega
  · -- past the plan end: DONE, measure drops to zero
    have he := supervisorStep_done_eq mr oracle worker rv s hp h
    have hz : supMeasure mr (supervisorStep mr oracle worker rv s) = 0 := by
      rw [he]; simp [supMeasure, isTerminal]
    rw [hz, hms]; omega

/-- A non-terminal session is in the running phase. -/
theorem phase_running_of_not_terminal (s : SupState) (h : isTerminal s = false) :
    s.phase = .running := by
  unfold isTerminal at h
  cases hp : s.phase
  · rfl
  · rw [hp] at h; simp at h
  · rw [hp] at h; simp at h

/-- A run of at least `supMeasure` many Reviewer decisions ends terminal. -/
theorem runSupervisor_terminates_of_measure (mr : Nat) (oracle : Nat → String → String)
    (worker : SupStep → String) :
    ∀ (reviews : List ReviewOutput) (s : SupState),
      (s.plan.map SupStep.id).Nodup → supMeasure mr s ≤ reviews.length →
      isTerminal (runSupervisor mr oracle worker reviews s) = true := by
  intro reviews
  induction reviews with
  | nil =>
    intro s hn hle
    by_cases hiT : isTerminal s = true
    · exact hiT
    · exfalso
      have hfalse : isTerminal s = false := by revert hiT; cases isTerminal s <;> simp
      have hp := phase_running_of_not_terminal s hfalse
      have hrun := supMeasure_running mr s hp
      simp only [List.length_nil] at hle
      omega
  | cons r rs ih =>
    intro s hn hle
    by_cases hiT : isTerminal s = true
    · rw [runSupervisor_terminal_fixed mr oracle worker (r :: rs) s hiT]
      exact hiT
    · have hfalse : isTerminal s = false := by revert hiT; cases isTerminal s <;> simp
      have hp := phase_running_of_not_terminal s hfalse
      have hdec := supMeasure_decreases mr oracle worker r s hp hn
      have hn' : ((supervisorStep mr oracle worker r s).plan.map SupStep.id).Nodup := by
        rw [supervisorStep_plan_ids]; exact hn
      show isTerminal (runSupervisor mr oracle worker rs
        (supervisorStep mr oracle worker r s)) = true
      apply ih _ hn'
      have hlen : (r :: rs).length = rs.length + 1 := rfl
      omega

/-- Replanning-event bookkeeping: the history holds the replanning event of
a step id exactly when that id has spent its single flag, and then exactly
once. -/
def replanInv (s : SupState) : Prop :=
  ∀ x : Nat, s.history.count (SupEvent.replanning x)
    = (if x ∈ s.replanned then 1 else 0)

/-- One transition preserves the replanning-event bookkeeping. -/
theorem replanInv_step (mr : Nat) (oracle : Nat → String → String)
    (worker : SupStep → String) (rv : ReviewOutput) (s : SupState)
    (h : replanInv s) : replanInv (supervisorStep mr oracle worker rv s) := by
  intro x
  by_cases hp : s.phase = .running
  case neg =>
    have hterm : isTerminal s = true := by
      unfold isTerminal
      cases hps : s.phase
      · exact absurd hps hp
      · rfl
      · rfl
    rw [supervisorStep_terminal_fixed mr oracle worker rv s hterm]
    exact h x
  case pos =>
    by_cases hl : s.idx < s.plan.length
    · by_cases ha : rv.approved
      · rw [supervisorStep_approved_eq mr oracle worker rv s hp hl ha]
        simpa [List.count_append, List.count_cons] using h x
      · have ha' : rv.approved = false := by revert ha; cases rv.approved <;> simp
        by_cases hrt : s.retry (s.plan[s.idx]).id + 1 < mr
        · rw [supervisorStep_retry_eq mr oracle worker rv s hp hl ha' hrt]
          simpa [List.count_append, List.count_cons] using h x
        · by_cases hmem : (s.plan[s.idx]).id ∈ s.replanned
          · rw [supervisorStep_failed_eq mr oracle worker rv s hp hl ha' hrt hmem]
            simpa [List.count_append, List.count_cons] using h x
          · rw [supervisorStep_replan_eq mr oracle worker rv s hp hl ha' hrt hmem]
            by_cases hx : x = (s.plan[s.idx]).id
            · rw [hx]
              have h0 : s.history.count (SupEvent.replanning (s.plan[s.idx]).id) = 0 := by
                have hh := h (s.plan[s.idx]).id
                rw [if_neg hmem] at hh
                exact hh
              simp [List.count_append, List.count_cons, h0]
            · have hx' : ¬ (s.plan[s.idx]).id = x := fun hh => hx hh.symm
              have hmem' : (x ∈ s.replanned ++ [(s.plan[s.idx]).id]) ↔ x ∈ s.replanned := by
                constructor
                · intro hmm
                  rcases List.mem_append.mp hmm with h1 | h1
                  · exact h1
                  · exact absurd (List.mem_singleton.mp h1).symm hx'
                · intro hmm; exact List.mem_append_left _ hmm
              show (s.history ++ _).count _ = _
              rw [List.count_append, h x]
              by_cases hsr : x ∈ s.replanned
              · rw [if_pos hsr, if_pos (hmem'.mpr hsr)]
                simp [List.count_cons, hx']
              · rw [if_neg hsr, if_neg (fun hh => hsr (hmem'.mp hh))]
                simp [List.count_cons, hx']
    · rw [supervisorStep_done_eq mr oracle worker rv s hp hl]
      simpa [List.count_append, List.count_cons] using h x

/-- A whole run preserves the replanning-event bookkeeping. -/
theorem replanInv_run (mr : Nat) (oracle : Nat → String → String)
    (worker : SupStep → String) (reviews : List ReviewOutput) (s : SupState)
    (h : replanInv s) : replanInv (runSupervisor mr oracle worker reviews s) := by
  induction reviews generalizing s with
  | nil => exact h
  | cons r rs ih => exact ih _ (replanInv_step mr oracle worker r s h)

/-- Replacing every artifact of a given id by the spread of the incoming
artifact makes the incoming artifact the first (and only) hit of a subsequent
lookup, as soon as the id was present before. -/
theorem find?_map_replace (l : List Artifact) (b : Artifact)
    (h : (l.find? (fun a => a.id == b.id)).isSome) :
    (l.map (fun a => if a.id == b.id then spreadFull a b else a)).find?
      (fun a => a.id == b.id) = some b := by
  induction l with
  | nil => simp at h
  | cons x xs ih =>
    by_cases hx : (x.id == b.id) = true
    · rw [List.map_cons, if_pos hx, spreadFull_eq]
      exact List.find?_cons_of_pos _ (by simp)
    · rw [List.map_cons, if_neg hx,
        List.find?_cons_of_neg (p := fun a : Artifact => a.id == b.id) _ hx]
      apply ih
      rwa [List.find?_cons_of_neg (p := fun a : Artifact => a.id == b.id) _ hx] at h

/-- `addMessage` leaves the whole state untouched when the id is present. -/
theorem addMessage_mem_noop (s : AppState) (m : ChatMessage)
    (h : (s.messages.find? (fun x => x.id == m.id)).isSome) :
    addMessage m s = s := by
  obtain ⟨x, hx⟩ := Option.isSome_iff_exists.mp h
  unfold addMessage
  rw [hx]

/-- One `addMessage` call preserves pairwise-distinct message ids. -/
theorem addMessage_nodup (s : AppState) (m : ChatMessage)
    (h : (s.messages.map (fun x => x.id)).Nodup) :
    ((addMessage m s).messages.map (fun x => x.id)).Nodup := by
  unfold addMessage
  cases hf : s.messages.find? (fun x => x.id == m.id) with
  | some x => exact h
  | none =>
    have hnotin : m.id ∉ s.messages.map (fun x => x.id) := by
      intro hmem
      obtain ⟨y, hy, hyid⟩ := List.mem_map.mp hmem
      have hne := List.find?_eq_none.mp hf y hy
      simp [hyid] at hne
    simp only [List.map_append, List.map_cons, List.map_nil]
    exact h.append (List.nodup_singleton _) (List.disjoint_singleton.mpr hnotin)

/-- Any sequence of `addMessage` calls preserves pairwise-distinct ids. -/
theorem foldl_addMessage_nodup (msgs : List ChatMessage) (s : AppState)
    (h : (s.messages.map (fun x => x.id)).Nodup) :
    ((msgs.foldl (fun s m => addMessage m s) s).messages.map (fun x => x.id)).Nodup := by
  induction msgs generalizing s with
  | nil => exact h
  | cons m ms ih => exact ih (addMessage m s) (addMessage_nodup s m h)

/-- A patch maps over a list with no matching id without any effect. -/
theorem map_patch_id (id : String) (u : ArtifactPatch) (l : List Artifact)
    (h : ∀ a ∈ l, a.id ≠ id) :
    l.map (fun a => if a.id == id then spreadPatch a u else a) = l := by
  induction l with
  | nil => rfl
  | cons x xs ih =>
    have hx : ¬ (x.id == id) = true := by
      simp only [beq_iff_eq]
      exact h x (List.mem_cons_self x xs)
    rw [List.map_cons, if_neg hx, ih (fun a ha => h a (List.mem_cons_of_mem x ha))]

/-- Summing a constant over a list multiplies it by the length. -/
theorem sum_map_const_budget (mr : Nat) (l : List SupStep) :
    (l.map (fun _ => mr + 2)).sum = l.length * (mr + 2) := by
  induction l with
  | nil => simp
  | cons a t ih =>
    simp only [List.map_cons, List.sum_cons, List.length_cons, ih]
    ring

/-- The measure of a fresh session is one plus N times (maxRetries + 2). -/
theorem supMeasure_init (mr : Nat) (plan : List SupStep) :
    supMeasure mr (initSup plan) = 1 + plan.length * (mr + 2) := by
  have hp : (initSup plan).phase = .running := rfl
  rw [supMeasure_running mr _ hp]
  have h1 : (initSup plan).plan.drop (initSup plan).idx = plan := rfl
  rw [h1]
  have h2 : plan.map (stepBudget mr (initSup plan)) = plan.map (fun _ => mr + 2) := by
    apply List.map_congr_left
    intro t ht
    simp [stepBudget, initSup]
  rw [h2, sum_map_const_budget]

/-! ### Claim C3 -/

/-- C3: for every plan with the spec-mandated pairwise-distinct step ids,
every Planner/worker behaviour and every sequence of Reviewer decisions of
length at least 1 + N * (max_retries + 2), the Supervisor reaches a terminal
state (DONE or FAILED) — each step can consume at most max_retries retries,
one replanning event and one further failure, which bounds total work per
step and per plan — and the history never holds more than one replanning
event per step id. -/
theorem C3_supervisor_terminates (mr : Nat) (oracle : Nat → String → String)
    (worker : SupStep → String) (plan : List SupStep) (reviews : List ReviewOutput)
    (hn : (plan.map SupStep.id).Nodup)
    (hlen : 1 + plan.length * (mr + 2) ≤ reviews.length) :
    isTerminal (runSupervisor mr oracle worker reviews (initSup plan)) = true ∧
    ∀ x : Nat, (runSupervisor mr oracle worker reviews (initSup plan)).history.count
      (SupEvent.replanning x) ≤ 1 := by
  constructor
  · apply runSupervisor_terminates_of_measure mr oracle worker reviews (initSup plan) hn
    rw [supMeasure_init]
    exact hlen
  · intro x
    have hinv : replanInv (runSupervisor mr oracle worker reviews (initSup plan)) := by
      apply replanInv_run
      intro y
      simp [initSup]
    rw [hinv x]
    split <;> omega

/-- Concrete one-step plan for the C3 witness. -/
def c3_plan : List SupStep :=
  [{ id := 1, role := "storywriter", instruction := "w", description := "d" }]

/-- Three consecutive rejections for the C3 witness. -/
def c3_reviews : List ReviewOutput :=
  List.replicate 3 { approved := false, feedback := "bad" }

/-- Witness for C3 at a concrete plan, oracle and decision sequence. -/
theorem C3_supervisor_terminates_witness :
    isTerminal (runSupervisor 0 (fun _ i => i) (fun _ => "out") c3_reviews
      (initSup c3_plan)) = true ∧
    (runSupervisor 0 (fun _ i => i) (fun _ => "out") c3_reviews
      (initSup c3_plan)).history.count (SupEvent.replanning 1) ≤ 1 :=
  ⟨(C3_supervisor_terminates 0 (fun _ i => i) (fun _ => "out") c3_plan c3_reviews
      (by decide) (by decide)).1,
   (C3_supervisor_terminates 0 (fun _ i => i) (fun _ => "out") c3_plan c3_reviews
      (by decide) (by decide)).2 1⟩

/-- Unfolding one decision of a run. -/
theorem runSupervisor_cons (mr : Nat) (oracle : Nat → String → String)
    (worker : SupStep → String) (r : ReviewOutput) (rs : List ReviewOutput)
    (s : SupState) :
    runSupervisor mr oracle worker (r :: rs) s
      = runSupervisor mr oracle worker rs (supervisorStep mr oracle worker r s) := rfl

/-- A sequence of immediate approvals with a fixed feedback text. -/
def approveAll (fb : String) (k : Nat) : List ReviewOutput :=
  List.replicate k { approved := true, feedback := fb }

/-- The artifact a worker commits for a step on its first approval. -/
def stepArtifact (worker : SupStep → String) (t : SupStep) : SupArtifact :=
  { id := t.id, content := worker t, version := 1 }

/-- Happy path, generalized: from a running state with k remaining steps
whose artifact slots are all still free, k approvals and one further
decision finish the session in DONE, visiting the remaining steps in plan
order and committing one artifact per step at version 1. -/
theorem approveRun (mr : Nat) (oracle : Nat → String → String)
    (worker : SupStep → String) (fb : String) :
    ∀ (k : Nat) (s : SupState), s.phase = .running → s.idx + k = s.plan.length →
      (s.plan.map SupStep.id).Nodup →
      (∀ t ∈ s.plan.drop s.idx, s.artifacts.find? (fun a => a.id == t.id) = none) →
      (runSupervisor mr oracle worker (approveAll fb (k + 1)) s).phase = .done ∧
      (runSupervisor mr oracle worker (approveAll fb (k + 1)) s).history
        = s.history ++ ((s.plan.drop s.idx).map (fun t =>
            [SupEvent.step_started t.id, SupEvent.step_approved t.id t.id 1])).flatten
          ++ [SupEvent.session_done] ∧
      (runSupervisor mr oracle worker (approveAll fb (k + 1)) s).artifacts
        = s.artifacts ++ (s.plan.drop s.idx).map (stepArtifact worker) := by
  intro k
  induction k with
  | zero =>
    intro s hp hlen hn hfree
    have hnl : ¬ s.idx < s.plan.length := by omega
    have hdropnil : s.plan.drop s.idx = [] := List.drop_eq_nil_of_le (by omega)
    have he := supervisorStep_done_eq mr oracle worker
      { approved := true, feedback := fb } s hp hnl
    have hrun : runSupervisor mr oracle worker (approveAll fb (0 + 1)) s
        = supervisorStep mr oracle worker { approved := true, feedback := fb } s := rfl
    rw [hrun, he, hdropnil]
    refine ⟨rfl, by simp, by simp⟩
  | succ k ih =>
    intro s hp hlen hn hfree
    have hlt : s.idx < s.plan.length := by omega
    have hdr : s.plan.drop s.idx = s.plan[s.idx] :: s.plan.drop (s.idx + 1) :=
      List.drop_eq_getElem_cons hlt
    have hnex : ∀ t ∈ s.plan.drop (s.idx + 1), t.id ≠ (s.plan[s.idx]).id :=
      nodup_notin_drop s.plan s.idx hn hlt
    have hfind : s.artifacts.find? (fun a => a.id == (s.plan[s.idx]).id) = none := by
      apply hfree
      rw [hdr]
      exact List.mem_cons_self _ _
    have hv : nextVersion (s.plan[s.idx]).id s.artifacts = 1 := by
      unfold nextVersion; rw [hfind]
    have hc : commitArtifact (s.plan[s.idx]).id (worker (s.plan[s.idx])) s.artifacts
        = s.artifacts ++ [stepArtifact worker (s.plan[s.idx])] := by
      unfold commitArtifact
      rw [hfind]
      rfl
    have he := supervisorStep_approved_eq mr oracle worker
      { approved := true, feedback := fb } s hp hlt rfl
    have hphase₁ : (supervisorStep mr oracle worker
        { approved := true, feedback := fb } s).phase = .running := by rw [he]; exact hp
    have hplan₁ : (supervisorStep mr oracle worker
        { approved := true, feedback := fb } s).plan = s.plan := by rw [he]
    have hidx₁ : (supervisorStep mr oracle worker
        { approved := true, feedback := fb } s).idx = s.idx + 1 := by rw [he]
    have hart₁ : (supervisorStep mr oracle worker
        { approved := true, feedback := fb } s).artifacts
          = s.artifacts ++ [stepArtifact worker (s.plan[s.idx])] := by
      rw [he, hc]
    have hhist₁ : (supervisorStep mr oracle worker
        { approved := true, feedback := fb } s).history
          = s.history ++ [SupEvent.step_started (s.plan[s.idx]).id,
              SupEvent.step_approved (s.plan[s.idx]).id (s.plan[s.idx]).id 1] := by
      rw [he, hv]
    have hnod₁ : ((supervisorStep mr oracle worker
        { approved := true, feedback := fb } s).plan.map SupStep.id).Nodup := by
      rw [hplan₁]; exact hn
    have hlen₁ : (supervisorStep mr oracle worker
          { approved := true, feedback := fb } s).idx + k
        = (supervisorStep mr oracle worker
          { approved := true, feedback := fb } s).plan.length := by
      rw [hplan₁, hidx₁]; omega
    have hfree₁ : ∀ t ∈ (supervisorStep mr oracle worker
          { approved := true, feedback := fb } s).plan.drop
            (supervisorStep mr oracle worker { approved := true, feedback := fb } s).idx,
        (supervisorStep mr oracle worker
          { approved := true, feedback := fb } s).artifacts.find?
            (fun a => a.id == t.id) = none := by
      rw [hplan₁, hidx₁, hart₁]
      intro t ht
      rw [List.find?_eq_none]
      intro a ha
      rcases List.mem_append.mp ha with h1 | h1
      · exact List.find?_eq_none.mp
          (hfree t (by rw [hdr]; exact List.mem_cons_of_mem _ ht)) a h1
      · have ha2 : a = stepArtifact worker (s.plan[s.idx]) := List.mem_singleton.mp h1
        rw [ha2]
        simp only [stepArtifact, beq_iff_eq]
        exact fun hq => (hnex t ht) hq.symm
    obtain ⟨kp, kh, ka⟩ := ih (supervisorStep mr oracle worker
      { approved := true, feedback := fb } s) hphase₁ hlen₁ hnod₁ hfree₁
    have hstep : runSupervisor mr oracle worker (approveAll fb (k + 1 + 1)) s
        = runSupervisor mr oracle worker (approveAll fb (k + 1))
            (supervisorStep mr oracle worker { approved := true, feedback := fb } s) := rfl
    refine ⟨?_, ?_, ?_⟩
    · rw [hstep]; exact kp
    · rw [hstep, kh, hhist₁, hplan₁, hidx₁, hdr]
      simp [List.flatten, List.append_assoc]
    · rw [hstep, ka, hart₁, hplan₁, hidx₁, hdr]
      simp only [List.map_cons, List.append_assoc, List.singleton_append]

/-! ### Claim C4 -/

/-- C4: for every plan with strictly increasing step ids, if every Reviewer
call approves immediately, the Supervisor visits the steps in ascending id
order exactly once each — the history records exactly one step_started and
one step_approved event per step, in plan order, followed by session_done —
and the session ends in DONE with exactly N committed artifacts, each at
version 1. -/
theorem C4_happy_path (mr : Nat) (oracle : Nat → String → String)
    (worker : SupStep → String) (fb : String) (plan : List SupStep)
    (hinc : (plan.map SupStep.id).Pairwise (fun a b => a < b)) :
    (runSupervisor mr oracle worker (approveAll fb (plan.length + 1))
        (initSup plan)).phase = .done ∧
    (runSupervisor mr oracle worker (approveAll fb (plan.length + 1))
        (initSup plan)).history
      = (plan.map (fun t =>
          [SupEvent.step_started t.id, SupEvent.step_approved t.id t.id 1])).flatten
        ++ [SupEvent.session_done] ∧
    (runSupervisor mr oracle worker (approveAll fb (plan.length + 1))
        (initSup plan)).artifacts = plan.map (stepArtifact worker) ∧
    (runSupervisor mr oracle worker (approveAll fb (plan.length + 1))
        (initSup plan)).artifacts.length = plan.length ∧
    (∀ a ∈ (runSupervisor mr oracle worker (approveAll fb (plan.length + 1))
        (initSup plan)).artifacts, a.version = 1) := by
  have hn : (plan.map SupStep.id).Nodup := hinc.imp (fun h => Nat.ne_of_lt h)
  obtain ⟨kp, kh, ka⟩ := approveRun mr oracle worker fb plan.length (initSup plan)
    rfl (by simp [initSup]) hn (fun t ht => rfl)
  have ha3 : (runSupervisor mr oracle worker (approveAll fb (plan.length + 1))
      (initSup plan)).artifacts = plan.map (stepArtifact worker) := by
    simpa [initSup] using ka
  refine ⟨kp, by simpa [initSup] using kh, ha3, by rw [ha3]; simp, ?_⟩
  rw [ha3]
  intro a hamem
  obtain ⟨t, ht, rfl⟩ := List.mem_map.mp hamem
  rfl

/-- Two-step plan for the C4 witness. -/
def c4_plan : List SupStep :=
  [{ id := 1, role := "storywriter", instruction := "w1", description := "d1" },
   { id := 2, role := "visualizer", instruction := "w2", description := "d2" }]

/-- Witness for C4 at a concrete two-step plan. -/
theorem C4_happy_path_witness :
    (runSupervisor 3 (fun _ i => i) (fun t => t.instruction)
        (approveAll "ok" (c4_plan.length + 1)) (initSup c4_plan)).phase = .done ∧
    (runSupervisor 3 (fun _ i => i) (fun t => t.instruction)
        (approveAll "ok" (c4_plan.length + 1)) (initSup c4_plan)).artifacts
      = c4_plan.map (stepArtifact (fun t => t.instruction)) ∧
    (runSupervisor 3 (fun _ i => i) (fun t => t.instruction)
        (approveAll "ok" (c4_plan.length + 1)) (initSup c4_plan)).artifacts.length
      = c4_plan.length :=
  have h := C4_happy_path 3 (fun _ i => i) (fun t => t.instruction) "ok" c4_plan
    (by decide)
  ⟨h.1, h.2.2.1, h.2.2.2.1⟩

/-! ### Consistency Engine (modelled from the spec)

The image-producing worker and its anchor strategy live in the Python
backend (`src/graph/nodes.py`, `src/utils/image_generation.py`), which is
not among the packaged sources; the definitions below are modelled from
specification §3 and §4.3. -/

/-- Modelled from the spec: the origin of a style anchor (§3);
`src/graph/nodes.py` is not in the packaged sources. -/
inductive AnchorOrigin
  | explicit_style | first_slide_fallback | reused_from_prior_session
deriving DecidableEq, Repr

/-- Modelled from the spec: an anchor reference — an opaque handle to the
reference image bytes plus its origin (§3). -/
structure AnchorRef where
  imageRef : Nat
  origin : AnchorOrigin
deriving DecidableEq, Repr

/-- Modelled from the spec: the session facts the selection algorithm
inspects (§4.3) — a prior session's recorded anchor handle when the session
was opened in edit mode, and the handle of an explicit style definition if
one was supplied. -/
structure AnchorCtx where
  priorAnchor : Option Nat
  explicitStyle : Option Nat
deriving DecidableEq, Repr

/-- Modelled from the spec: the session's consistency state — at most one
anchor per session, absent until the first image request (§3). -/
structure ConsistencyState where
  styleAnchor : Option AnchorRef
deriving DecidableEq, Repr

/-- Modelled from the spec: one image-generation call as issued through the
Model Invocation Port, recording the conditioning reference it carries
(§4.3, §6). -/
structure ImageCall where
  slide : Nat
  reference : Option Nat
deriving DecidableEq, Repr

/-- Modelled from the spec: the anchor selection algorithm, evaluated once
per session at the first image request, in priority order (§4.3): reuse a
prior session's anchor unchanged; else issue one dedicated generation for
the explicit style and condition the slide on its result; else generate the
first content slide normally and retroactively record its image as the
anchor. `gen` is the image-generation capability (opaque handles in and
out). -/
def selectAnchor (gen : Nat → Nat) (ctx : AnchorCtx) (slide : Nat) :
    AnchorRef × ImageCall :=
  match ctx.priorAnchor with
  | some h =>
      ({ imageRef := h, origin := .reused_from_prior_session },
       { slide := slide, reference := some h })
  | none =>
    match ctx.explicitStyle with
    | some sty =>
        ({ imageRef := gen sty, origin := .explicit_style },
         { slide := slide, reference := some (gen sty) })
    | none =>
        ({ imageRef := gen slide, origin := .first_slide_fallback },
         { slide := slide, reference := none })

/-- Modelled from the spec: one slide-image request through the Consistency
Engine (§4.3). With the anchor set, the call is conditioned on it and no
selection runs; otherwise this request performs the session's single
anchor-producing selection. The last component counts anchor-producing
selection runs (0 or 1). -/
def requestSlideImage (gen : Nat → Nat) (ctx : AnchorCtx) (s : ConsistencyState)
    (slide : Nat) : ConsistencyState × ImageCall × Nat :=
  match s.styleAnchor with
  | some a => (s, { slide := slide, reference := some a.imageRef }, 0)
  | none =>
      ({ styleAnchor := some (selectAnchor gen ctx slide).1 },
       (selectAnchor gen ctx slide).2, 1)

/-- Modelled from the spec: a session processes its slide-image requests
strictly in order (§5), accumulating the issued generation calls and the
total number of anchor-producing selection runs. -/
def runSession (gen : Nat → Nat) (ctx : AnchorCtx) :
    List Nat → ConsistencyState → ConsistencyState × List ImageCall × Nat
  | [], s => (s, [], 0)
  | slide :: rest, s =>
      ((runSession gen ctx rest (requestSlideImage gen ctx s slide).1).1,
       (requestSlideImage gen ctx s slide).2.1
         :: (runSession gen ctx rest (requestSlideImage gen ctx s slide).1).2.1,
       (requestSlideImage gen ctx s slide).2.2
         + (runSession gen ctx rest (requestSlideImage gen ctx s slide).1).2.2)

/-- Modelled from the spec: an explicit restyle clears `style_anchor`, so
the next image request re-runs the selection algorithm (§4.3). -/
def restyle (s : ConsistencyState) : ConsistencyState :=
  { s with styleAnchor := none }

/-- A session that already holds its anchor never selects again: the anchor
is preserved verbatim, zero anchor-producing runs occur, and every call is
conditioned on that same anchor. -/
theorem runSession_anchored (gen : Nat → Nat) (ctx : AnchorCtx) (a : AnchorRef) :
    ∀ slides : List Nat,
      (runSession gen ctx slides ⟨some a⟩).1 = ⟨some a⟩ ∧
      (runSession gen ctx slides ⟨some a⟩).2.2 = 0 ∧
      ∀ c ∈ (runSession gen ctx slides ⟨some a⟩).2.1,
        c.reference = some a.imageRef := by
  intro slides
  induction slides with
  | nil =>
    refine ⟨rfl, rfl, ?_⟩
    intro c hc
    simp [runSession] at hc
  | cons x xs ih =>
    obtain ⟨h1, h2, h3⟩ := ih
    refine ⟨?_, ?_, ?_⟩
    · simpa [runSession, requestSlideImage] using h1
    · simpa [runSession, requestSlideImage] using h2
    · intro c hc
      simp [runSession, requestSlideImage] at hc
      rcases hc with hc | hc
      · rw [hc]
      · exact h3 c hc

/-! ### Claim C2 -/

/-- C2: in every session with at least one slide-image request, exactly one
anchor-producing selection occurs — at the first request; the anchor stored
for the rest of the session is the one selected there, every subsequent
generation call is conditioned on that same anchor reference, and the
anchor is never reselected within the session except through an explicit
restyle, which clears the anchor so a rerun performs exactly one fresh
selection. -/
theorem C2_anchor_once (gen : Nat → Nat) (ctx : AnchorCtx) (first : Nat)
    (rest : List Nat) :
    (runSession gen ctx (first :: rest) ⟨none⟩).2.2 = 1 ∧
    (runSession gen ctx (first :: rest) ⟨none⟩).1.styleAnchor
      = some (selectAnchor gen ctx first).1 ∧
    (∀ c ∈ ((runSession gen ctx (first :: rest) ⟨none⟩).2.1).tail,
      c.reference = some (selectAnchor gen ctx first).1.imageRef) ∧
    restyle (runSession gen ctx (first :: rest) ⟨none⟩).1
      = (⟨none⟩ : ConsistencyState) ∧
    (runSession gen ctx (first :: rest)
      (restyle (runSession gen ctx (first :: rest) ⟨none⟩).1)).2.2 = 1 := by
  obtain ⟨h1, h2, h3⟩ := runSession_anchored gen ctx (selectAnchor gen ctx first).1 rest
  have hreq : requestSlideImage gen ctx ⟨none⟩ first
      = (⟨some (selectAnchor gen ctx first).1⟩, (selectAnchor gen ctx first).2, 1) := rfl
  have hcount : (runSession gen ctx (first :: rest) ⟨none⟩).2.2 = 1 := by
    show (requestSlideImage gen ctx ⟨none⟩ first).2.2
        + (runSession gen ctx rest (requestSlideImage gen ctx ⟨none⟩ first).1).2.2 = 1
    rw [hreq]
    simpa using h2
  have hstate : (runSession gen ctx (first :: rest) ⟨none⟩).1
      = ⟨some (selectAnchor gen ctx first).1⟩ := by
    show (runSession gen ctx rest (requestSlideImage gen ctx ⟨none⟩ first).1).1 = _
    rw [hreq]
    exact h1
  refine ⟨hcount, by rw [hstate], ?_, by rw [hstate]; rfl, ?_⟩
  · intro c hc
    have htail : ((runSession gen ctx (first :: rest) ⟨none⟩).2.1).tail
        = (runSession gen ctx rest (requestSlideImage gen ctx ⟨none⟩ first).1).2.1 := rfl
    rw [htail, hreq] at hc
    exact h3 c hc
  · have hres : restyle (runSession gen ctx (first :: rest) ⟨none⟩).1
        = (⟨none⟩ : ConsistencyState) := by rw [hstate]; rfl
    rw [hres]
    exact hcount

/-- Context with no prior anchor and no explicit style, for the C2 witness
(the spec's concrete fallback scenario with five slides). -/
def c2_ctx : AnchorCtx := { priorAnchor := none, explicitStyle := none }

/-- Witness for C2 at the spec's concrete five-slide fallback scenario. -/
theorem C2_anchor_once_witness :
    (runSession (fun h => h + 100) c2_ctx (1 :: [2, 3, 4, 5]) ⟨none⟩).2.2 = 1 ∧
    (runSession (fun h => h + 100) c2_ctx (1 :: [2, 3, 4, 5])
      (restyle (runSession (fun h => h + 100) c2_ctx
        (1 :: [2, 3, 4, 5]) ⟨none⟩).1)).2.2 = 1 :=
  ⟨(C2_anchor_once (fun h => h + 100) c2_ctx 1 [2, 3, 4, 5]).1,
   (C2_anchor_once (fun h => h + 100) c2_ctx 1 [2, 3, 4, 5]).2.2.2.2⟩

/-! ### Claim C1 -/

/-- Concrete data for C1: a stored artifact at version 2 and an incoming
artifact for the same id carrying version 1. -/
def c1_prev : Artifact :=
  { id := "a", type := .report, title := "t", content := "c", version := 2, timestamp := 0 }

/-- Incoming artifact for the C1 counterexample. -/
def c1_incoming : Artifact :=
  { id := "a", type := .report, title := "t", content := "c2", version := 1, timestamp := 1 }

/-- Store state holding `c1_prev`. -/
def c1_state : AppState := { initialState with artifacts := [c1_prev] }

/-- C1 is false as stated: committing an artifact whose id already exists
does not always strictly increase the stored version — `addArtifact`
overwrites the entry with the incoming artifact, so an incoming version 1
replaces a stored version 2 and the version strictly decreases. -/
theorem C1_counterexample :
    c1_state.artifacts.map Artifact.version = [2] ∧
    (addArtifact c1_incoming c1_state).artifacts.map Artifact.version = [1] := by
  constructor <;> decide

/-- C1 (amended): when an artifact with the incoming id already exists,
`addArtifact` replaces the stored entry by the incoming artifact wholesale,
so the version stored after the commit equals the incoming artifact's
version — it strictly increases exactly when the incoming version is larger;
the store performs no version bookkeeping of its own. -/
theorem C1_replace_stores_incoming_version (s : AppState) (artifact : Artifact)
    (h : (s.artifacts.find? (fun a => a.id == artifact.id)).isSome) :
    (addArtifact artifact s).artifacts.find? (fun a => a.id == artifact.id)
      = some artifact := by
  obtain ⟨x, hx⟩ := Option.isSome_iff_exists.mp h
  unfold addArtifact
  rw [hx]
  exact find?_map_replace s.artifacts artifact h

/-- Witness for C1's amended theorem at the concrete C1 state. -/
theorem C1_replace_stores_incoming_version_witness :
    (c1_state.artifacts.find? (fun a => a.id == c1_incoming.id)).isSome = true ∧
    (addArtifact c1_incoming c1_state).artifacts.find? (fun a => a.id == c1_incoming.id)
      = some c1_incoming :=
  ⟨by decide, C1_replace_stores_incoming_version c1_state c1_incoming (by decide)⟩

/-! ### Claim C5 -/

/-- A concrete log entry for C5. -/
def c5_log : AgentLog :=
  { id := "log-1", agent := "System", step := "Started", status := .running, timestamp := 0 }

/-- Store state holding one log entry. -/
def c5_state : AppState := { initialState with logs := [c5_log] }

/-- C5 is false as stated for `clearLogs`: it is an operation on the log that
does not preserve the previously recorded events as a prefix — it resets the
log to the empty list. -/
theorem C5_counterexample :
    (clearLogs c5_state).logs = [] ∧ c5_state.logs = [c5_log] ∧
    ¬ ∃ t, (clearLogs c5_state).logs = c5_state.logs ++ t := by
  refine ⟨rfl, rfl, ?_⟩
  rintro ⟨t, ht⟩
  simp [clearLogs, c5_state] at ht

/-- C5 (amended): each `addLog` call appends exactly one entry at the end,
preserving all previously recorded events unchanged as a prefix; the log is
append-only across `addLog` calls, but the explicit `clearLogs` reset
discards all entries. -/
theorem C5_addLog_appends (s : AppState) (log : AgentLog) :
    (addLog log s).logs = s.logs ++ [log] := rfl

/-! ### Claim C6 -/

/-- C6: on every exit path of `startStream` — normal close, connection
failure, transport error — `isStreaming` is false after the control loop
returns: the session is never left in a running state. -/
theorem C6_isStreaming_false_on_exit (now : Nat) (run : StreamRun) (s : AppState) :
    (startStream now run s).isStreaming = false := by
  unfold startStream
  cases run.exit <;> rfl

/-! ### Claim C7 -/

/-- Slide-generation hook state whose image is already present. -/
def c7_slideGen : SlideGenState :=
  { imageUrl := some "u.png", isGenerating := false }

/-- A concrete committed artifact for C7. -/
def c7_art : Artifact :=
  { id := "a", type := .image, title := "s", content := "img", version := 3, timestamp := 5 }

/-- Store state holding `c7_art`. -/
def c7_state : AppState := { initialState with artifacts := [c7_art] }

/-- C7: re-submitting already-committed work with unchanged inputs is a
no-op. Adding an artifact extensionally equal to the stored one leaves the
entry for that id unchanged (same version, same content), and calling
`generateImage` on a slide whose image url is already set issues zero
generation requests and leaves the hook state unchanged. -/
theorem C7_resubmit_noop :
    (∀ (s : AppState) (artifact : Artifact),
        s.artifacts.find? (fun a => a.id == artifact.id) = some artifact →
        (addArtifact artifact s).artifacts.find? (fun a => a.id == artifact.id)
          = some artifact) ∧
    (∀ (st : SlideGenState) (u : String) (res : FetchOutcome) (now : Nat),
        st.imageUrl = some u → generateImage st res now = (st, 0)) := by
  constructor
  · intro s artifact hfind
    unfold addArtifact
    rw [hfind]
    exact find?_map_replace s.artifacts artifact (by rw [hfind]; rfl)
  · intro st u res now h
    unfold generateImage
    rw [h]

/-- Witness for C7 at concrete inputs. -/
theorem C7_resubmit_noop_witness :
    ((addArtifact c7_art c7_state).artifacts.find? (fun a => a.id == c7_art.id)
      = some c7_art) ∧
    generateImage c7_slideGen .httpError 7 = (c7_slideGen, 0) :=
  ⟨C7_resubmit_noop.1 c7_state c7_art (by decide),
   C7_resubmit_noop.2 c7_slideGen "u.png" .httpError 7 rfl⟩

/-! ### Claim C8 -/

/-- C8: `addMessage` is a no-op on the entire state when a message with the
same id is present, and consequently after any sequence of `addMessage` calls
from the initial state the message ids are pairwise distinct. -/
theorem C8_addMessage_distinct_ids :
    (∀ (s : AppState) (m : ChatMessage),
        (s.messages.find? (fun x => x.id == m.id)).isSome → addMessage m s = s) ∧
    (∀ msgs : List ChatMessage,
        ((msgs.foldl (fun s m => addMessage m s) initialState).messages.map
          (fun x => x.id)).Nodup) := by
  constructor
  · exact addMessage_mem_noop
  · intro msgs
    exact foldl_addMessage_nodup msgs initialState (by simp [initialState])

/-- Concrete message for the C8 witness. -/
def c8_msg : ChatMessage := { id := "m1", role := .user, content := "hi", timestamp := 0 }

/-- Store state holding `c8_msg`. -/
def c8_state : AppState := { initialState with messages := [c8_msg] }

/-- Witness for C8 at concrete inputs. -/
theorem C8_addMessage_distinct_ids_witness :
    addMessage c8_msg c8_state = c8_state ∧
    (([c8_msg, c8_msg].foldl (fun s m => addMessage m s) initialState).messages.map
      (fun x => x.id)).Nodup :=
  ⟨C8_addMessage_distinct_ids.1 c8_state c8_msg (by decide),
   C8_addMessage_distinct_ids.2 [c8_msg, c8_msg]⟩

/-! ### Claim C9 -/

/-- C9: `updateArtifact` preserves list length and order, leaves every
artifact whose id differs untouched (pointwise, position by position), and is
the identity when no stored artifact has the given id. -/
theorem C9_updateArtifact_frame (id : String) (u : ArtifactPatch) (s : AppState) :
    ((updateArtifact id u s).artifacts.length = s.artifacts.length) ∧
    (∀ (i : Nat) (a : Artifact), s.artifacts[i]? = some a → a.id ≠ id →
        (updateArtifact id u s).artifacts[i]? = some a) ∧
    ((∀ a ∈ s.artifacts, a.id ≠ id) → (updateArtifact id u s).artifacts = s.artifacts) := by
  refine ⟨by simp [updateArtifact], ?_, ?_⟩
  · intro i a ha hne
    simp only [updateArtifact]
    rw [List.getElem?_map, ha]
    simp [hne]
  · intro hall
    exact map_patch_id id u s.artifacts hall

/-- Concrete artifacts for the C9 witness. -/
def c9_a : Artifact :=
  { id := "a", type := .report, title := "ta", content := "ca", version := 1, timestamp := 0 }

/-- Second concrete artifact for the C9 witness. -/
def c9_b : Artifact :=
  { id := "b", type := .outline, title := "tb", content := "cb", version := 1, timestamp := 0 }

/-- Store state holding `c9_a` and `c9_b`. -/
def c9_state : AppState := { initialState with artifacts := [c9_a, c9_b] }

/-- Concrete patch for the C9 witness. -/
def c9_patch : ArtifactPatch := { title := some "tb2", version := some 2 }

/-- Witness for C9 at concrete inputs. -/
theorem C9_updateArtifact_frame_witness :
    (updateArtifact "b" c9_patch c9_state).artifacts.length = c9_state.artifacts.length ∧
    (updateArtifact "b" c9_patch c9_state).artifacts[0]? = some c9_a ∧
    (updateArtifact "zz" c9_patch c9_state).artifacts = c9_state.artifacts :=
  ⟨(C9_updateArtifact_frame "b" c9_patch c9_state).1,
   (C9_updateArtifact_frame "b" c9_patch c9_state).2.1 0 c9_a (by decide) (by decide),
   (C9_updateArtifact_frame "zz" c9_patch c9_state).2.2 (by decide)⟩

/-! ### Claim C10 -/

/-- C10: for a `message` event whose (derived) id has already been seen in
the same stream, the handler body raises an exception (the unresolved
`appendMessageContent` reference), the exception stays inside the handler's
`try`/`catch`, and the handler state — including the stored message list —
is left entirely unchanged. -/
theorem C10_duplicate_message_caught (now : Nat) (id data : String) (hs : HandlerState)
    (hdata : data ≠ "")
    (hseen : hs.seenMessageIds.contains
      (if id == "" then "msg-" ++ toString now else id) = true) :
    onmessageBody now (.message id data) hs = .error .refErrorAppendMessageContent ∧
    onmessage now (.message id data) hs = hs := by
  have hd : (data == "") = false := beq_eq_false_iff_ne.mpr hdata
  have hseen' : (if id = "" then "msg-" ++ toString now else id) ∈ hs.seenMessageIds := by
    simpa using hseen
  have hbody : onmessageBody now (.message id data) hs
      = .error .refErrorAppendMessageContent := by
    simp [onmessageBody, hd, hseen']
  exact ⟨hbody, by unfold onmessage; rw [hbody]⟩

/-- Handler state for the C10 witness: message id already seen. -/
def c10_hs : HandlerState := { seenMessageIds := ["m1"], store := initialState }

/-- Witness for C10 at concrete inputs. -/
theorem C10_duplicate_message_caught_witness :
    onmessageBody 5 (.message "m1" "hello") c10_hs = .error .refErrorAppendMessageContent ∧
    onmessage 5 (.message "m1" "hello") c10_hs = c10_hs :=
  C10_duplicate_message_caught 5 "m1" "hello" c10_hs (by decide) (by decide)

end SlideApp
